import Mathlib

/-!
Verification of `localCache/cacheDataLocally.py` (the `AssetGenerator` pipeline).

The Python program is shallowly embedded: strings are `List Char`, the
filesystem is an explicit association of directory paths and file paths to
contents, the network is an oracle mapping each attempt of a fetch to an
outcome, and `json.loads`/`json.dumps` normalisation is an abstract
`parse : Str → Option Str` parameter (a `none` result models a
`json.loads` exception).
-/

set_option maxRecDepth 8000

namespace CacheDataLocally

/-- Strings of the Python program, as lists of characters. -/
abbrev Str := List Char

/-- Coerce a Lean string literal to the `Str` representation. -/
def chars (s : String) : Str := s.toList

/-! ## `str.replace` (used at line 116: `self.jsonString.replace(url, filename)`)

Python's `str.replace(old, new)` replaces every non-overlapping occurrence of
`old`, scanning left to right.  Fuel-indexed so that it reduces by `rfl`; the
wrapper supplies enough fuel (`s.length + 1`) for the scan to complete. -/

def strReplaceAux : Nat → Str → Str → Str → Str
  | 0, s, _, _ => s
  | fuel + 1, s, pat, rep =>
    match s with
    | [] => if pat = [] then rep else []
    | c :: cs =>
      if pat = [] then rep ++ c :: strReplaceAux fuel cs pat rep
      else if pat.isPrefixOf (c :: cs) then
        rep ++ strReplaceAux fuel ((c :: cs).drop pat.length) pat rep
      else c :: strReplaceAux fuel cs pat rep

/-- Python `s.replace(pat, rep)`. -/
def strReplace (s pat rep : Str) : Str := strReplaceAux (s.length + 1) s pat rep

/-! ## URL extraction (lines 98-99)

The source regex is
`http[s]?://(?:[a-zA-Z]|[0-9]|[$-_@.&+]|[!*\(\),]|(?:%[0-9a-fA-F][0-9a-fA-F]))+`.
Note `[$-_@.&+]` is a character class containing the ASCII *range* `$`(0x24)
to `_`(0x5F) plus `@ . & +` (all four already inside that range); similarly
`* ( ) ,` and `%` with two hex digits lie inside the range, so of the other
alternatives only `!`(0x21) adds a character.  The three-character
`%xx` alternative is subsumed by the single-character alternatives (`%` is
0x25, hex digits are alphanumeric), so a maximal run of the alternation is a
maximal run of single characters from the union set.  `re.findall` returns
the non-overlapping leftmost maximal matches in text order. -/

/-- Character class of the source regex body (ASCII codes). -/
def isUrlChar (c : Char) : Bool :=
  (97 ≤ c.toNat && c.toNat ≤ 122) ||     -- [a-z]
  (65 ≤ c.toNat && c.toNat ≤ 90) ||      -- [A-Z]
  (48 ≤ c.toNat && c.toNat ≤ 57) ||      -- [0-9]
  (36 ≤ c.toNat && c.toNat ≤ 95) ||      -- [$-_]  ($ = 0x24 .. _ = 0x5F)
  c.toNat == 64 || c.toNat == 46 || c.toNat == 38 || c.toNat == 43 ||  -- @ . & +
  c.toNat == 33 || c.toNat == 42 || c.toNat == 40 || c.toNat == 41 ||  -- ! * ( )
  c.toNat == 44 || c.toNat == 37          -- , %

/-- Try to match `http[s]?://<body>+` (body from `isC`) at the head of `s`;
return the match and the rest of the text. -/
def matchHttpUrlWith (isC : Char → Bool) (s : Str) : Option (Str × Str) :=
  match s with
  | 'h' :: 't' :: 't' :: 'p' :: rest =>
    match rest with
    | 's' :: ':' :: '/' :: '/' :: r2 =>
      match r2.takeWhile isC with
      | [] => none
      | body => some (chars "https://" ++ body, r2.drop body.length)
    | ':' :: '/' :: '/' :: r2 =>
      match r2.takeWhile isC with
      | [] => none
      | body => some (chars "http://" ++ body, r2.drop body.length)
    | _ => none
  | _ => none

/-- Scanner for `re.findall`: at each position try to match; on a match,
emit it and resume after it, otherwise advance one character.  Each step
consumes at least one character, so `s.length` fuel always suffices. -/
def extractUrlsAuxWith (isC : Char → Bool) : Nat → Str → List Str
  | 0, _ => []
  | _ + 1, [] => []
  | fuel + 1, c :: cs =>
    match matchHttpUrlWith isC (c :: cs) with
    | some (m, rest) => m :: extractUrlsAuxWith isC fuel rest
    | none => extractUrlsAuxWith isC fuel cs

def extractUrlsWith (isC : Char → Bool) (s : Str) : List Str :=
  extractUrlsAuxWith isC s.length s

/-- `re.findall(linkRegex, jsonString)` of the source (line 99). -/
def extractUrls (s : Str) : List Str := extractUrlsWith isUrlChar s

/-! ## URL-derived names (lines 102-110) -/

/-- Python `url.rstrip("\\")`: remove every trailing backslash (line 103). -/
def rstripBackslash (s : Str) : Str :=
  (s.reverse.dropWhile (fun c => c == '\\')).reverse

/-- Strip `;params` from the last `/`-segment, as `urllib.parse` does when
computing `.path` (it searches for `;` from the last `/`). -/
def stripParams (p : Str) : Str :=
  let segs := p.splitOn '/'
  List.intercalate ['/'] (segs.dropLast ++ [(segs.getLastD []).takeWhile (fun c => !(c == ';'))])

/-- The text after the `http://` or `https://` scheme prefix (every caller
passes an extracted match, which always has one). -/
def afterSchemeOf (url : Str) : Str :=
  if (chars "https://").isPrefixOf url then url.drop 8
  else if (chars "http://").isPrefixOf url then url.drop 7
  else url

/-- The authority: everything up to the first `/` or `?` after the scheme
(extracted matches can never contain `#`, which is outside the regex
class). -/
def netlocOf (url : Str) : Str :=
  (afterSchemeOf url).takeWhile (fun c => !(c == '/') && !(c == '?'))

/-- `urllib.parse.urlparse(url).path` for a string starting with `http://`
or `https://`.  `urlsplit` raises `ValueError("Invalid IPv6 URL")` when the
authority contains an unpaired `[` or `]` (both characters lie inside the
regex range `[$-_]`, so the extractor can match them): that raise is
modelled as `none`.  Otherwise: keep the path up to any `?` query and strip
`;params` from the final segment.  (Interpreters from 3.11 additionally
validate the host inside a *paired* bracket; the run-level theorems assume
bracket-free authorities, under which no interpreter version raises.) -/
def urlPathOf (url : Str) : Option Str :=
  let netloc := netlocOf url
  if ('[' ∈ netloc ∧ ']' ∉ netloc) ∨ (']' ∈ netloc ∧ '[' ∉ netloc) then none
  else
    let rest := (afterSchemeOf url).dropWhile (fun c => !(c == '/') && !(c == '?'))
    let path := if rest.head? = some '/' then rest.takeWhile (fun c => !(c == '?')) else []
    some (stripParams path)

/-- Lines 106-110: `urlparse(url).path.split("/")[-1]`, the derived local
filename; `none` models the line-106 `ValueError`. -/
def urlFileName (url : Str) : Option Str :=
  (urlPathOf url).map (fun p => (p.splitOn '/').getLastD [])

/-- The derived filename with a default, used only to *state* the run-level
lemmas; their hypotheses guarantee `urlFileName` succeeds, so the default
never fires there. -/
def fileNameD (url : Str) : Str := (urlFileName url).getD []

/-- No bracket anywhere in the authority: under this condition `urlparse`
returns normally in every interpreter version. -/
def bracketFreeNetloc (url : Str) : Prop :=
  '[' ∉ netlocOf url ∧ ']' ∉ netlocOf url

instance (url : Str) : Decidable (bracketFreeNetloc url) := by
  unfold bracketFreeNetloc
  infer_instance

/-! ## Filesystem model

Directories and files live at full path strings; a flat association suffices
because this program creates a single staging directory and writes files
directly inside it.  `shutil.rmtree` and `shutil.move` act on whole subtrees,
identified by the path-prefix relation `isUnder`. -/

/-- `p` lies in the subtree rooted at `anc` (for POSIX paths: equal, or an
extension across a `/`). -/
def isUnder (anc p : Str) : Bool := p == anc || (anc ++ ['/']).isPrefixOf p

/-- `os.path.join(a, b)` (posixpath): `b` if `b` is absolute, else `a`
glued to `b` with exactly one `/`. -/
def joinPath (a b : Str) : Str :=
  if b.head? = some '/' then b
  else if a = [] ∨ a.getLast? = some '/' then a ++ b
  else a ++ '/' :: b

/-- `posixpath.basename`: the part after the last `/`. -/
def basename (p : Str) : Str := (p.splitOn '/').getLastD []

structure Fs where
  dirs : List Str
  files : List (Str × Str)
deriving DecidableEq

/-- `os.path.exists`. -/
def fsExists (fs : Fs) (p : Str) : Bool :=
  fs.dirs.contains p || fs.files.any (fun pc => pc.1 == p)

/-- `os.makedirs` for the single-level staging directory. -/
def makedirs (fs : Fs) (p : Str) : Fs := { fs with dirs := p :: fs.dirs }

/-- Write (or overwrite) the file at `p`. -/
def writeFile (fs : Fs) (p c : Str) : Fs :=
  { fs with files := (p, c) :: fs.files.filter (fun pc => !(pc.1 == p)) }

/-- `open(p).read()`. -/
def readFile (fs : Fs) (p : Str) : Option Str :=
  (fs.files.find? (fun pc => pc.1 == p)).map (·.2)

/-- `shutil.rmtree p`: delete the whole subtree at `p`. -/
def rmtree (fs : Fs) (p : Str) : Fs :=
  { dirs := fs.dirs.filter (fun q => !(isUnder p q)),
    files := fs.files.filter (fun pc => !(isUnder p pc.1)) }

/-- `shutil.move src dst`: if `dst` is an existing directory the source tree
is moved inside it (at `dst/basename(src)`), otherwise the tree is renamed
to `dst`. -/
def moveDir (fs : Fs) (src dst : Str) : Fs :=
  let target := if fs.dirs.contains dst then joinPath dst (basename src) else dst
  { dirs := fs.dirs.map (fun q => if isUnder src q then target ++ q.drop src.length else q),
    files := fs.files.map (fun pc =>
      if isUnder src pc.1 then (target ++ pc.1.drop src.length, pc.2) else pc) }

/-- The files of the subtree rooted at `d`. -/
def filesUnder (d : Str) (fs : Fs) : List (Str × Str) :=
  fs.files.filter (fun pc => isUnder d pc.1)

/-- The directories of the subtree rooted at `d`. -/
def dirsUnder (d : Str) (fs : Fs) : List Str :=
  fs.dirs.filter (fun q => isUnder d q)

/-- No entry of `fs` lies in the subtree rooted at `q`. -/
def cleanUnder (q : Str) (fs : Fs) : Bool :=
  fs.dirs.all (fun p => !(isUnder q p)) && fs.files.all (fun pc => !(isUnder q pc.1))

/-! ## The fetcher: `AssetGenerator.downloadFile` (lines 121-156)

One network attempt (`urllib.request.urlretrieve`) is an `Outcome`; the
oracle gives the outcome of the `k`-th attempt.  The Python recursion at
line 139 passes `retryNum` (not `retryNum + 1`) back to itself, so the
recursion is not structurally bounded: `fuel` counts remaining call-stack
frames, and running out of fuel models Python's `RecursionError`. -/

inductive Outcome
  | success (contentLength : Option Nat) (body : Str)
  | httpError (code : Nat)        -- urllib.error.HTTPError, e.code
  | urlError (reason : Str)       -- urllib.error.URLError, e.reason
deriving DecidableEq

inductive DlErr
  | remoteError (url : Str) (code : Nat)       -- line 135 message, raised at line 156
  | transportError (url : Str) (reason : Str)  -- line 141 message, raised at line 156
  | stackOverflow                              -- RecursionError from the unbounded retry
deriving DecidableEq

inductive DlRes
  | ok (filepath : Str) (contentLength : Option Nat)  -- line 152: `return filename, headers`
  | retNone                                           -- fall-through: the function returns None
  | err (e : DlErr)                                   -- an exception propagates
deriving DecidableEq

/-- Bytes added to the counter by lines 145-148: the `Content-Length` value
when the header is present (`if contentLength:`), nothing when absent. -/
def contentBytes : Option Nat → Nat
  | some n => n
  | none => 0

/-- Orchestrator state: the retry budget, the `RunStats` counters, the
filesystem, and an observational log of every download attempt's URL. -/
structure St where
  numRetries : Nat
  totalBytes : Nat
  numFiles : Nat
  fs : Fs
  log : List Str
deriving DecidableEq

/-- `AssetGenerator.downloadFile(url, path, filename, retryNum)`; `k` is the
index of the next attempt in `oracle`, returned alongside the result so the
number of attempts made is observable. -/
def downloadFile (oracle : Nat → Outcome) (url path filename : Str)
    (retryNum : Nat) (st : St) (k : Nat) : Nat → DlRes × St × Nat
  | 0 => (.err .stackOverflow, st, k)
  | fuel + 1 =>
    let filepath := joinPath path filename
    match oracle k with
    | .success cl body =>
      (.ok filepath cl,
       { st with
         fs := writeFile st.fs filepath body,
         log := st.log ++ [url],
         totalBytes := st.totalBytes + contentBytes cl,
         numFiles := st.numFiles + 1 },
       k + 1)
    | .httpError code =>
      (.err (.remoteError url code), { st with log := st.log ++ [url] }, k + 1)
    | .urlError reason =>
      if retryNum < st.numRetries then
        -- line 139: `self.downloadFile(url, path, filename, retryNum)` —
        -- retryNum is NOT incremented and the result is discarded; if the
        -- inner call returns normally the outer call falls through to the
        -- implicit `return None` (errorMessage is still empty).
        match downloadFile oracle url path filename retryNum
            { st with log := st.log ++ [url] } (k + 1) fuel with
        | (.err e, st', k') => (.err e, st', k')
        | (_, st', k') => (.retNone, st', k')
      else
        (.err (.transportError url reason), { st with log := st.log ++ [url] }, k + 1)

/-! ## The orchestrator (`__init__`, `loadJSON`, `getFilesFromJson`,
`saveJson` and the promotion step) -/

inductive RunErr
  | malformedManifest      -- json.loads raises (line 91)
  | typeErrorUnpack        -- line 87 unpacks None when downloadFile returned via a retry
  | ioError                -- open() on a missing file
  | invalidUrl             -- line 106: urlparse raises ValueError (Invalid IPv6 URL)
  | dl (e : DlErr)         -- exception raised inside downloadFile
deriving DecidableEq

/-- `AssetGenerator.loadJSON` (lines 86-92): fetch the manifest into
`tempFolder/data.json`, read it back, and parse-normalise it
(`json.dumps(json.loads(...))`, modelled by `parse`).  Errors carry the
state at the moment the exception propagates. -/
def loadJSON (oracle : Nat → Outcome) (parse : Str → Option Str)
    (url tempFolder : Str) (st : St) (fuel : Nat) : Except (RunErr × St) (Str × St) :=
  match downloadFile oracle url tempFolder (chars "data.json") 0 st 0 fuel with
  | (.ok filepath _, st', _) =>
    match readFile st'.fs filepath with
    | none => .error (.ioError, st')
    | some body =>
      match parse body with
      | none => .error (.malformedManifest, st')
      | some norm => .ok (norm, st')
  | (.retNone, st', _) => .error (.typeErrorUnpack, st')
  | (.err e, st', _) => .error (.dl e, st')

/-- The loop body of `AssetGenerator.getFilesFromJson` (lines 101-116),
iterated over the url list found once in the original text: strip trailing
backslashes, derive the filename via `urlparse` (whose line-106 `ValueError`
on an unpaired-bracket authority aborts the run before the download),
download (the returned pair is discarded), and substitute the url by the
filename in the running text.  The remote server is deterministic, so every
attempt of one fetch sees the same outcome. -/
def getFilesFromJson (remote : Str → Outcome) (tempFolder : Str)
    (jsonString : Str) (urls : List Str) (st : St) (fuel : Nat) :
    Except (RunErr × St) (Str × St) :=
  match urls with
  | [] => .ok (jsonString, st)
  | url :: rest =>
    let url' := rstripBackslash url
    match urlFileName url' with
    | none => .error (.invalidUrl, st)   -- urlparse raises at line 106, before the download
    | some filename =>
      match downloadFile (fun _ => remote url') url' tempFolder filename 0 st 0 fuel with
      | (.err e, st', _) => .error (.dl e, st')
      | (_, st', _) =>
        getFilesFromJson remote tempFolder (strReplace jsonString url' filename) rest st' fuel

/-- Lines 74-76: `if os.path.exists(os.path.join(dest, dest)):
shutil.rmtree(...)` followed by `shutil.move(tempFolder, dest)`. -/
def promote (fs : Fs) (tempFolder destination : Str) : Fs :=
  let dd := joinPath destination destination
  let fs1 := if fsExists fs dd then rmtree fs dd else fs
  moveDir fs1 tempFolder destination

/-- `AssetGenerator.__init__` (lines 32-81): the whole run.  `scriptDir`
stands for `os.path.dirname(os.path.abspath(__file__))`; the destination is
taken as already `expanduser`-expanded.  A raised exception aborts the run
(`.error`), carrying the state at the raise. -/
def run (remote : Str → Outcome) (parse : Str → Option Str)
    (scriptDir localCacheDirectory apiURL : Str) (numRetries fuel : Nat)
    (fs0 : Fs) : Except (RunErr × St) St :=
  let tempFolder := joinPath scriptDir (chars "temp")
  let destination := localCacheDirectory
  let st0 : St :=
    { numRetries := numRetries, totalBytes := 0, numFiles := 0,
      fs := if fsExists fs0 tempFolder then fs0 else makedirs fs0 tempFolder,
      log := [] }
  match loadJSON (fun _ => remote apiURL) parse apiURL tempFolder st0 fuel with
  | .error e => .error e
  | .ok (jsonString, st1) =>
    match getFilesFromJson remote tempFolder jsonString (extractUrls jsonString) st1 fuel with
    | .error e => .error e
    | .ok (finalJson, st2) =>
      let st3 := { st2 with fs := writeFile st2.fs (joinPath tempFolder (chars "data.json")) finalJson }
      .ok { st3 with fs := promote st3.fs tempFolder destination }

/-! ## Derived forms used to state the run-level lemmas -/

/-- Body carried by a successful outcome. -/
def bodyOf : Outcome → Str
  | .success _ b => b
  | .httpError _ => []
  | .urlError _ => []

/-- The file entry written into the staging area by one iteration of the
`getFilesFromJson` loop (when the fetch succeeds). -/
def stageWrite (remote : Str → Outcome) (temp : Str)
    (files : List (Str × Str)) (url : Str) : List (Str × Str) :=
  let url' := rstripBackslash url
  let fp := joinPath temp (fileNameD url')
  (fp, bodyOf (remote url')) :: files.filter (fun pc => !(pc.1 == fp))

/-- The staging files produced by the whole download loop. -/
def stageWrites (remote : Str → Outcome) (temp : Str)
    (files : List (Str × Str)) (urls : List Str) : List (Str × Str) :=
  urls.foldl (stageWrite remote temp) files

/-- The manifest text after the loop's successive `str.replace` passes. -/
def rewriteFrom (js : Str) (urls : List Str) : Str :=
  urls.foldl (fun s u => strReplace s (rstripBackslash u) (fileNameD (rstripBackslash u))) js

/-- Relocation of one staging entry by `shutil.move tempFolder destination`. -/
def relocEntry (temp dest : Str) (pc : Str × Str) : Str × Str :=
  (dest ++ pc.1.drop temp.length, pc.2)

/-- Join segments with a separator (used to state what `str.replace` does:
the input decomposes into separator-free segments joined by the pattern, and
the output is the same segments joined by the replacement). -/
def joinWith (sep : Str) : List Str → Str
  | [] => []
  | [t] => t
  | t :: ts => t ++ sep ++ joinWith sep ts

/-- The complete content of the staging directory just before promotion:
the rewritten `data.json` plus the downloaded assets (the raw manifest was
first written to `data.json`, then overwritten by `saveJson`). -/
def stagedCache (remote : Str → Outcome) (temp body norm : Str) : List (Str × Str) :=
  let dj := joinPath temp (chars "data.json")
  let urls := extractUrls norm
  (dj, rewriteFrom norm urls) ::
    (stageWrites remote temp [(dj, body)] urls).filter (fun pc => !(pc.1 == dj))

/-! ## The Extractor grammar as the specification words it

The spec claims the URL body characters are "letters, digits, and the
literal character set `$ - _ @ . & + ! * ( ) , %`".  `claimedUrlChar` is
modelled from those words; `amendedUrlChar` replaces the literal set by what
the regex class `[$-_...]` actually denotes: the ASCII range `$`(0x24) to
`_`(0x5F), plus `!`(0x21). -/

/-- Modelled from the spec: letters (97-122, 65-90), digits (48-57), and the
literal characters `$ - _ @ . & + ! * ( ) , %`. -/
def claimedUrlChar (c : Char) : Bool :=
  (97 ≤ c.toNat && c.toNat ≤ 122) ||
  (65 ≤ c.toNat && c.toNat ≤ 90) ||
  (48 ≤ c.toNat && c.toNat ≤ 57) ||
  c.toNat == 36 || c.toNat == 45 || c.toNat == 95 || c.toNat == 64 ||  -- $ - _ @
  c.toNat == 46 || c.toNat == 38 || c.toNat == 43 || c.toNat == 33 ||  -- . & + !
  c.toNat == 42 || c.toNat == 40 || c.toNat == 41 || c.toNat == 44 ||  -- * ( ) ,
  c.toNat == 37                                                        -- %

/-- The Extractor as the specification describes it. -/
def extractUrlsClaimed (s : Str) : List Str := extractUrlsWith claimedUrlChar s

/-- Corrected character set: letters, digits, `!`, and every ASCII character
from `$`(0x24) to `_`(0x5F) (which includes `/ : ; = ? [ \ ] ^` and more). -/
def amendedUrlChar (c : Char) : Bool :=
  (97 ≤ c.toNat && c.toNat ≤ 122) ||
  (65 ≤ c.toNat && c.toNat ≤ 90) ||
  (48 ≤ c.toNat && c.toNat ≤ 57) ||
  (36 ≤ c.toNat && c.toNat ≤ 95) ||
  c.toNat == 33

/-! ## Concrete fixtures (the duplicate-URL manifest of the specification's
example, and a stale relative destination) -/

def exApi : Str := chars "https://api.ex.com/all"

def exAssetUrl : Str := chars "https://ex.com/up/a.png"

/-- The spec's duplicate-URL example manifest (its JSON braces omitted; the
parse step is abstract, so only the URL occurrences matter). -/
def exManifest : Str :=
  chars "\"img\":\"https://ex.com/up/a.png\",\"img2\":\"https://ex.com/up/a.png\""

/-- A deterministic remote: the manifest at the API URL, a small body
everywhere else. -/
def exRemote : Str → Outcome :=
  fun u => if u = exApi then .success (some 64) exManifest else .success (some 5) (chars "PNG")

/-- A parse that accepts everything and normalises nothing. -/
def exParse : Str → Option Str := fun s => some s

def emptyFs : Fs := ⟨[], []⟩

/-- A filesystem with a stale relative destination `cache` (holding
`old.txt`) and a populated staging directory `/s/temp`. -/
def staleFs : Fs :=
  ⟨[chars "cache", chars "/s/temp"],
   [(chars "cache/old.txt", chars "x"), (chars "/s/temp/data.json", chars "y")]⟩

/-! # Theorems -/

/-- C2 (code bug): if every attempt raises a transport-level failure and the
retry budget is positive, `downloadFile` never terminates with a
`TransportError`: line 139 passes `retryNum` unchanged into the recursive
call, so the guard `retryNum < self.numRetries` never becomes false.  For
every call-stack budget `fuel` the computation exhausts the stack
(`RecursionError`) after exactly `fuel` attempts — in particular it makes
more than `maxRetries + 1` attempts and the `TransportError` branch is
unreachable. -/
theorem c2_transport_retry_never_terminates (reason url path filename : Str)
    (st : St) (k retryNum : Nat) (h : retryNum < st.numRetries) : ∀ fuel,
    (downloadFile (fun _ => .urlError reason) url path filename retryNum st k fuel).1
      = .err .stackOverflow ∧
    (downloadFile (fun _ => .urlError reason) url path filename retryNum st k fuel).2.2
      = k + fuel := by
  intro fuel
  induction fuel generalizing st k with
  | zero => exact ⟨rfl, rfl⟩
  | succ n ih =>
    have ih' := ih { st with log := st.log ++ [url] } (k + 1) h
    simp only [downloadFile, if_pos h]
    rcases hd : downloadFile (fun _ => .urlError reason) url path filename retryNum
        { st with log := st.log ++ [url] } (k + 1) n with ⟨r, st', k'⟩
    rw [hd] at ih'
    obtain ⟨h1, h2⟩ := ih'
    dsimp only at h1 h2
    subst h1
    refine ⟨rfl, ?_⟩
    show k' = k + (n + 1)
    omega

/-- Witness for C2's theorem at a concrete state (`numRetries = 3`) and
`fuel = 10`: ten attempts are made (more than `maxRetries + 1 = 4`) and the
result is the stack-overflow marker, not a `TransportError`. -/
theorem c2_transport_retry_never_terminates_witness :
    0 < (⟨3, 0, 0, emptyFs, []⟩ : St).numRetries ∧
    ((downloadFile (fun _ => .urlError (chars "refused")) (chars "http://x")
        (chars "/s/temp") (chars "f") 0 ⟨3, 0, 0, emptyFs, []⟩ 0 10).1
      = .err .stackOverflow ∧
     (downloadFile (fun _ => .urlError (chars "refused")) (chars "http://x")
        (chars "/s/temp") (chars "f") 0 ⟨3, 0, 0, emptyFs, []⟩ 0 10).2.2 = 0 + 10) :=
  ⟨by decide,
   c2_transport_retry_never_terminates (chars "refused") (chars "http://x")
     (chars "/s/temp") (chars "f") ⟨3, 0, 0, emptyFs, []⟩ 0 0 (by decide) 10⟩

/-- C7: an attempt whose HTTP response carries an error status code makes
`downloadFile` fail at once with the `RemoteError` message naming the URL
and the code: exactly one further log entry (no retry attempt), whatever the
retry counter and budget. -/
theorem c7_http_error_fails_immediately (oracle : Nat → Outcome)
    (url path filename : Str) (code : Nat) (st : St) (k retryNum fuel : Nat)
    (h : oracle k = .httpError code) :
    downloadFile oracle url path filename retryNum st k (fuel + 1)
      = (.err (.remoteError url code), { st with log := st.log ++ [url] }, k + 1) := by
  simp only [downloadFile, h]

/-- Witness for C7 at a concrete oracle that answers 404. -/
theorem c7_http_error_fails_immediately_witness :
    (fun _ : Nat => Outcome.httpError 404) 0 = .httpError 404 ∧
    downloadFile (fun _ => .httpError 404) (chars "http://x/m.png") (chars "/s/temp")
        (chars "m.png") 0 ⟨3, 0, 0, emptyFs, []⟩ 0 6
      = (.err (.remoteError (chars "http://x/m.png") 404),
         { (⟨3, 0, 0, emptyFs, []⟩ : St) with log := [chars "http://x/m.png"] }, 1) :=
  ⟨rfl,
   c7_http_error_fails_immediately (fun _ => .httpError 404) (chars "http://x/m.png")
     (chars "/s/temp") (chars "m.png") 404 ⟨3, 0, 0, emptyFs, []⟩ 0 0 5 rfl⟩

/-- C9: when the first attempt raises a transport failure and the retry
succeeds, the successful inner result is discarded (line 139 ignores the
recursive call's value) and the top-level `downloadFile` falls through to
return `None`; consequently `loadJSON`, which unpacks the result at line 87,
raises (`TypeError`).  Moreover a top-level `(filename, headers)` result can
only arise when the very first attempt succeeds. -/
theorem c9_retry_success_returns_none (oracle : Nat → Outcome)
    (parse : Str → Option Str) (url tempFolder path filename : Str)
    (st : St) (cl : Option Nat) (body reason : Str) (fuel : Nat)
    (h1 : 0 < st.numRetries) (h0 : oracle 0 = .urlError reason)
    (hs : oracle 1 = .success cl body) :
    (downloadFile oracle url path filename 0 st 0 (fuel + 2)).1 = .retNone ∧
    (∃ stE, loadJSON oracle parse url tempFolder st (fuel + 2)
        = .error (.typeErrorUnpack, stE)) ∧
    (∀ (oracle2 : Nat → Outcome) (st2 : St) (fuel2 : Nat) fp cl2 stR kR,
        downloadFile oracle2 url path filename 0 st2 0 fuel2 = (.ok fp cl2, stR, kR) →
        ∃ c b, oracle2 0 = .success c b) := by
  have key : ∀ (p fname : Str),
      (downloadFile oracle url p fname 0 st 0 (fuel + 2)).1 = .retNone := by
    intro p fname
    show (downloadFile oracle url p fname 0 st 0 (fuel + 1 + 1)).1 = _
    simp only [downloadFile, h0, hs, if_pos h1, Nat.zero_add]
  refine ⟨key path filename, ?_, ?_⟩
  · unfold loadJSON
    rcases hd : downloadFile oracle url tempFolder (chars "data.json") 0 st 0 (fuel + 2)
      with ⟨r, stN, kN⟩
    have h1' := key tempFolder (chars "data.json")
    rw [hd] at h1'
    dsimp only at h1'
    subst h1'
    exact ⟨stN, rfl⟩
  · intro oracle2 st2 fuel2 fp cl2 stR kR hok
    cases fuel2 with
    | zero => exact absurd hok (by simp [downloadFile])
    | succ n =>
      rcases hc : oracle2 0 with clc | code | r2
      · exact ⟨_, _, rfl⟩
      · simp [downloadFile, hc] at hok
      · simp only [downloadFile, hc] at hok
        split at hok
        · split at hok <;> simp at hok
        · simp at hok

/-- Witness for C9's theorem: a concrete oracle failing once then
succeeding. -/
theorem c9_retry_success_returns_none_witness :
    0 < (⟨3, 0, 0, emptyFs, []⟩ : St).numRetries ∧
    (fun k : Nat => if k = 0 then Outcome.urlError (chars "t/o") else
        .success none (chars "B")) 0 = .urlError (chars "t/o") ∧
    (fun k : Nat => if k = 0 then Outcome.urlError (chars "t/o") else
        .success none (chars "B")) 1 = .success none (chars "B") ∧
    ((downloadFile (fun k => if k = 0 then .urlError (chars "t/o") else
          .success none (chars "B")) (chars "http://m") (chars "/s/temp")
        (chars "data.json") 0 ⟨3, 0, 0, emptyFs, []⟩ 0 (1 + 2)).1 = .retNone ∧
     (∃ stE, loadJSON (fun k => if k = 0 then .urlError (chars "t/o") else
            .success none (chars "B")) (fun s => some s) (chars "http://m")
          (chars "/s/temp") ⟨3, 0, 0, emptyFs, []⟩ (1 + 2)
        = .error (.typeErrorUnpack, stE)) ∧
     (∀ (oracle2 : Nat → Outcome) (st2 : St) (fuel2 : Nat) fp cl2 stR kR,
        downloadFile oracle2 (chars "http://m") (chars "/s/temp")
            (chars "data.json") 0 st2 0 fuel2 = (.ok fp cl2, stR, kR) →
        ∃ c b, oracle2 0 = .success c b)) :=
  ⟨by decide, rfl, rfl,
   c9_retry_success_returns_none _ (fun s => some s) (chars "http://m")
     (chars "/s/temp") (chars "/s/temp") (chars "data.json")
     ⟨3, 0, 0, emptyFs, []⟩ none (chars "B") (chars "t/o") 1
     (by decide) rfl rfl⟩

/-- C1 counterexample: on the spec's own duplicate-URL manifest the
orchestrator downloads the duplicated URL once per textual occurrence — the
attempt log records it twice, not once (the claim says exactly once).  All
occurrences are rewritten in the persisted `data.json`. -/
theorem c1_counterexample :
    Except.map (fun st => (st.log.count exAssetUrl, readFile st.fs (chars "/d/data.json")))
      (run exRemote exParse (chars "/s") (chars "/d") exApi 3 9 emptyFs)
      = .ok (2, some (chars "\"img\":\"a.png\",\"img2\":\"a.png\"")) := by
  rfl

/-- C3 counterexample: with a pre-existing *relative* destination `cache`,
the guard at line 74 tests `os.path.join("cache", "cache") = "cache/cache"`,
which does not exist, so the stale destination is not removed; `shutil.move`
then moves the staging directory *inside* it.  Afterwards the destination
still contains the stale `cache/old.txt`, and the fresh cache sits nested at
`cache/temp/` — not "exactly the fresh cache contents". -/
theorem c3_counterexample :
    filesUnder (chars "cache") (promote staleFs (chars "/s/temp") (chars "cache"))
      = [(chars "cache/old.txt", chars "x"), (chars "cache/temp/data.json", chars "y")] := by
  rfl

/-- C4 counterexample: running the orchestrator twice against the unchanged
remote with the relative destination `cache` does not reproduce the first
run's destination: the second run nests a fresh copy under `cache/temp/`
while the first run's files stay behind, so the destination trees differ. -/
theorem c4_counterexample :
    ((run exRemote exParse (chars "/s") (chars "cache") exApi 3 9 emptyFs).bind
      (fun st1 => (run exRemote exParse (chars "/s") (chars "cache") exApi 3 9 st1.fs).map
        (fun st2 => decide (filesUnder (chars "cache") st2.fs
                              = filesUnder (chars "cache") st1.fs))))
      = .ok false := by
  rfl

/-- C5 counterexample: the regex class `[$-_@.&+]` is an ASCII range, not
the literal seven characters; in particular `/` (0x2F) and `:` (0x3A) are
matched.  On `"img":"https://ex.com/up/a.png"` the code extracts the full
URL, while the grammar claimed by the spec (no `/` among the body
characters) would stop at the host. -/
theorem c5_counterexample :
    extractUrls (chars "\"img\":\"https://ex.com/up/a.png\"")
        = [chars "https://ex.com/up/a.png"] ∧
    extractUrlsClaimed (chars "\"img\":\"https://ex.com/up/a.png\"")
        = [chars "https://ex.com"] :=
  ⟨rfl, rfl⟩

/-- C5 (amended): the Extractor is exactly the scanner over the corrected
character set — letters, digits, `!`, and the whole ASCII range `$`..`_` —
returning matches in first-occurrence order, each used after stripping
trailing backslashes. -/
theorem c5_amended_charset (s : Str) :
    (extractUrls s).map rstripBackslash
      = (extractUrlsWith amendedUrlChar s).map rstripBackslash := by
  have hchar : isUrlChar = amendedUrlChar := by
    funext c
    rw [Bool.eq_iff_iff]
    simp only [isUrlChar, amendedUrlChar, Bool.or_eq_true, Bool.and_eq_true,
      decide_eq_true_eq, beq_iff_eq]
    omega
  show (extractUrlsWith isUrlChar s).map rstripBackslash = _
  rw [hchar]

/-! ## `str.replace` decomposition (claim C6) -/

lemma joinWith_cons_cons (sep : Str) (c : Char) (t : Str) (ts : List Str) :
    joinWith sep ((c :: t) :: ts) = c :: joinWith sep (t :: ts) := by
  cases ts <;> rfl

lemma joinWith_nil_cons (sep t : Str) (ts : List Str) :
    joinWith sep ([] :: t :: ts) = sep ++ joinWith sep (t :: ts) := rfl

lemma prefix_joinWith (sep t : Str) (ts : List Str) :
    t <+: joinWith sep (t :: ts) := by
  cases ts with
  | nil => exact List.prefix_refl t
  | cons t' ts' =>
    show t <+: t ++ sep ++ joinWith sep (t' :: ts')
    rw [List.append_assoc]
    exact List.prefix_append t _

lemma strReplaceAux_decomp (pat rep : Str) (hpat : pat ≠ []) :
    ∀ fuel s, s.length < fuel →
    ∃ ss : List Str, ss ≠ [] ∧ s = joinWith pat ss ∧
      (∀ t ∈ ss, ¬ pat <:+: t) ∧
      strReplaceAux fuel s pat rep = joinWith rep ss := by
  intro fuel
  induction fuel with
  | zero => intro s hs; omega
  | succ n ih =>
    intro s hs
    match s with
    | [] =>
      refine ⟨[[]], by simp, rfl, ?_, ?_⟩
      · intro t ht
        simp only [List.mem_singleton] at ht
        subst ht
        rw [List.infix_nil]
        exact hpat
      · simp [strReplaceAux, hpat, joinWith]
    | c :: cs =>
      by_cases hpre : pat.isPrefixOf (c :: cs)
      · obtain ⟨t, hts⟩ := List.isPrefixOf_iff_prefix.mp hpre
        have hlen : t.length < n := by
          have := congrArg List.length hts
          simp only [List.length_append, List.length_cons] at this hs
          have hp1 : 1 ≤ pat.length := by
            cases pat with
            | nil => exact absurd rfl hpat
            | cons a l => simp
          omega
        obtain ⟨ss', hne', hjoin', hseg', hrep'⟩ := ih t hlen
        match ss', hne' with
        | t₀ :: ts, _ =>
          refine ⟨[] :: t₀ :: ts, by simp, ?_, ?_, ?_⟩
          · rw [joinWith_nil_cons, ← hjoin', hts]
          · intro u hu
            rcases List.mem_cons.mp hu with h | h
            · subst h
              rw [List.infix_nil]
              exact hpat
            · exact hseg' u h
          · have hdrop : (c :: cs).drop pat.length = t := by
              rw [← hts, List.drop_left]
            simp only [strReplaceAux, if_neg hpat, if_pos hpre, hdrop, hrep']
            rw [joinWith_nil_cons]
      · obtain ⟨ss', hne', hjoin', hseg', hrep'⟩ := ih cs (by simp at hs; omega)
        match ss', hne' with
        | t₀ :: ts, _ =>
          refine ⟨(c :: t₀) :: ts, by simp, ?_, ?_, ?_⟩
          · rw [joinWith_cons_cons, ← hjoin']
          · intro u hu
            rcases List.mem_cons.mp hu with h | h
            · subst h
              intro hinf
              rcases List.infix_cons_iff.mp hinf with h2 | h2
              · have hpre2 : pat <+: c :: cs := by
                  refine h2.trans ?_
                  rw [hjoin']
                  exact List.cons_prefix_cons.mpr ⟨rfl, prefix_joinWith pat t₀ ts⟩
                exact hpre <| List.isPrefixOf_iff_prefix.mpr hpre2
              · exact hseg' t₀ (List.mem_cons_self t₀ ts) h2
            · exact hseg' u (List.mem_cons_of_mem t₀ h)
          · simp only [strReplaceAux, if_neg hpat, if_neg hpre, hrep']
            rw [joinWith_cons_cons]

/-- C6: `text.replace(url, filename)` decomposes the input into segments
containing no occurrence of `url`, joined by `url`; the output is exactly
the same segments joined by `filename`.  So every (non-overlapping, leftmost)
literal occurrence of `url` is replaced and every character outside the
replaced occurrences is left identical.  (A URL is never empty: every
extracted match starts with `http`.) -/
theorem c6_rewrite_segments (s pat rep : Str) (hpat : pat ≠ []) :
    ∃ ss : List Str, ss ≠ [] ∧ s = joinWith pat ss ∧
      (∀ t ∈ ss, ¬ pat <:+: t) ∧
      strReplace s pat rep = joinWith rep ss :=
  strReplaceAux_decomp pat rep hpat (s.length + 1) s (Nat.lt_succ_self _)

/-! ## Path lemmas -/

lemma isUnder_iff {anc p : Str} :
    isUnder anc p = true ↔ p = anc ∨ ∃ r, p = anc ++ '/' :: r := by
  simp only [isUnder, Bool.or_eq_true, beq_iff_eq, List.isPrefixOf_iff_prefix]
  constructor
  · rintro (h | ⟨t, ht⟩)
    · exact .inl h
    · exact .inr ⟨t, by rw [← ht]; simp⟩
  · rintro (h | ⟨r, hr⟩)
    · exact .inl h
    · exact .inr ⟨r, by rw [hr]; simp⟩

lemma isUnder_refl (p : Str) : isUnder p p = true := isUnder_iff.mpr (.inl rfl)

lemma isUnder_append (anc r : Str) : isUnder anc (anc ++ '/' :: r) = true :=
  isUnder_iff.mpr (.inr ⟨r, rfl⟩)

lemma sep_slash_isUnder {a b : Str} (h : a ++ ['/'] <+: b) : isUnder a b = true := by
  simp only [isUnder, Bool.or_eq_true, List.isPrefixOf_iff_prefix]
  exact .inr h

/-- Two ancestors of the same path are comparable. -/
lemma isUnder_comparable {a b p : Str} (ha : isUnder a p = true)
    (hb : isUnder b p = true) : isUnder a b = true ∨ isUnder b a = true := by
  rcases isUnder_iff.mp ha with h | ⟨r, hr⟩
  · right
    rw [← h]
    exact hb
  · rcases isUnder_iff.mp hb with h2 | ⟨s, hs⟩
    · left
      rw [← h2]
      exact ha
    · have h1 : a ++ ['/'] <+: p := ⟨r, by rw [hr]; simp⟩
      have h2 : b ++ ['/'] <+: p := ⟨s, by rw [hs]; simp⟩
      rcases List.prefix_or_prefix_of_prefix h1 h2 with h | h
      · left
        by_cases hlen : (a ++ ['/']).length ≤ b.length
        · exact sep_slash_isUnder
            (List.prefix_of_prefix_length_le h (List.prefix_append b ['/']) hlen)
        · have heq : a ++ ['/'] = b ++ ['/'] := by
            apply h.eq_of_length
            have := h.length_le
            simp only [List.length_append, List.length_cons, List.length_nil] at this hlen ⊢
            omega
          have : a = b := List.append_cancel_right heq
          rw [this]
          exact isUnder_refl b
      · right
        by_cases hlen : (b ++ ['/']).length ≤ a.length
        · exact sep_slash_isUnder
            (List.prefix_of_prefix_length_le h (List.prefix_append a ['/']) hlen)
        · have heq : b ++ ['/'] = a ++ ['/'] := by
            apply h.eq_of_length
            have := h.length_le
            simp only [List.length_append, List.length_cons, List.length_nil] at this hlen ⊢
            omega
          have : b = a := List.append_cancel_right heq
          rw [this]
          exact isUnder_refl a

/-- Disjoint subtrees: nothing under `temp` is also under `dest`. -/
lemma isUnder_disjoint {temp dest p : Str} (htd : isUnder dest temp = false)
    (hdt : isUnder temp dest = false) (h : isUnder temp p = true) :
    isUnder dest p = false := by
  cases hdp : isUnder dest p with
  | false => rfl
  | true =>
    rcases isUnder_comparable hdp h with h2 | h2
    · rw [htd] at h2
      exact absurd h2 (by simp)
    · rw [hdt] at h2
      exact absurd h2 (by simp)

/-- Relocating an entry of the staging subtree puts it in the destination
subtree. -/
lemma isUnder_reloc {temp dest p : Str} (h : isUnder temp p = true) :
    isUnder dest (dest ++ p.drop temp.length) = true := by
  rcases isUnder_iff.mp h with h | ⟨r, hr⟩
  · rw [h, List.drop_length, List.append_nil]
    exact isUnder_refl dest
  · have : p.drop temp.length = '/' :: r := by
      rw [hr]
      exact List.drop_left temp ('/' :: r)
    rw [this]
    exact isUnder_append dest r

lemma joinPath_abs {a b : Str} (h : b.head? = some '/') : joinPath a b = b := by
  simp [joinPath, h]

/-- `moveDir` after `rmtree` on disjoint subtrees: filtering the moved tree
under the destination leaves exactly the relocated staging entries. -/
lemma filter_map_split {α : Type} (P Q : α → Bool) (g : α → α)
    (hPQ : ∀ a, Q a = true → P (g a) = true)
    (hQP : ∀ a, Q a = true → P a = false) :
    ∀ l : List α,
      ((l.filter (fun a => !(P a))).map (fun a => if Q a then g a else a)).filter P
        = (l.filter Q).map g := by
  intro l
  induction l with
  | nil => rfl
  | cons a l ih =>
    cases hq : Q a with
    | true => simp [List.filter_cons, hQP a hq, hq, hPQ a hq, ih]
    | false => cases hp : P a <;> simp [List.filter_cons, hp, hq, ih]

/-- Witness for C6 on concrete input: `"xx-ab-ab-x".replace("ab", "Z")`. -/
theorem c6_rewrite_segments_witness :
    chars "ab" ≠ [] ∧
    ∃ ss : List Str, ss ≠ [] ∧ chars "xx-ab-ab-x" = joinWith (chars "ab") ss ∧
      (∀ t ∈ ss, ¬ chars "ab" <:+: t) ∧
      strReplace (chars "xx-ab-ab-x") (chars "ab") (chars "Z") = joinWith (chars "Z") ss :=
  ⟨by decide, c6_rewrite_segments (chars "xx-ab-ab-x") (chars "ab") (chars "Z") (by decide)⟩

/-- C3 (amended): when the destination path is absolute,
`os.path.join(dest, dest)` collapses to `dest`, so an existing destination
directory is detected, its whole tree removed, and the staging tree renamed
to the destination: afterwards the destination subtree consists exactly of
the relocated staging entries (files and directories) — nothing stale
survives.  (For relative destinations the check misses; see the
counterexample.) -/
theorem c3_amended_absolute_dest (fs : Fs) (temp dest : Str)
    (habs : dest.head? = some '/') (hmem : dest ∈ fs.dirs)
    (htd : isUnder dest temp = false) (hdt : isUnder temp dest = false) :
    filesUnder dest (promote fs temp dest)
        = (filesUnder temp fs).map (relocEntry temp dest) ∧
    dirsUnder dest (promote fs temp dest)
        = (dirsUnder temp fs).map (fun q => dest ++ q.drop temp.length) := by
  have hdd : joinPath dest dest = dest := joinPath_abs habs
  have hex : fsExists fs dest = true := by
    simp only [fsExists, Bool.or_eq_true]
    left
    simp [List.contains, List.elem_iff, hmem]
  have hcont : ((rmtree fs dest).dirs.contains dest) = false := by
    cases hc : (rmtree fs dest).dirs.contains dest with
    | false => rfl
    | true =>
      have hmem2 : dest ∈ (rmtree fs dest).dirs := by
        simpa [List.contains, List.elem_iff] using hc
      have := (List.mem_filter.mp hmem2).2
      rw [isUnder_refl dest] at this
      exact absurd this (by simp)
  unfold promote
  dsimp only
  rw [hdd]
  rw [if_pos (show fsExists fs dest = true from hex)]
  unfold moveDir
  dsimp only
  rw [hcont]
  simp only [Bool.false_eq_true, if_false]
  constructor
  · show List.filter _ (List.map _ (rmtree fs dest).files) = _
    unfold rmtree filesUnder
    exact filter_map_split (fun pc => isUnder dest pc.1) (fun pc => isUnder temp pc.1)
      (fun pc => (dest ++ pc.1.drop temp.length, pc.2))
      (fun pc h => isUnder_reloc h) (fun pc h => isUnder_disjoint htd hdt h) fs.files
  · show List.filter _ (List.map _ (rmtree fs dest).dirs) = _
    unfold rmtree dirsUnder
    exact filter_map_split (fun q => isUnder dest q) (fun q => isUnder temp q)
      (fun q => dest ++ q.drop temp.length)
      (fun q h => isUnder_reloc h) (fun q h => isUnder_disjoint htd hdt h) fs.dirs

/-- Witness for C3's amended theorem at a concrete stale absolute
destination. -/
theorem c3_amended_absolute_dest_witness :
    ((chars "/d").head? = some '/' ∧ chars "/d" ∈
        (⟨[chars "/d", chars "/s/temp"],
          [(chars "/d/old.txt", chars "x"), (chars "/s/temp/data.json", chars "y")]⟩ : Fs).dirs ∧
      isUnder (chars "/d") (chars "/s/temp") = false ∧
      isUnder (chars "/s/temp") (chars "/d") = false) ∧
    (filesUnder (chars "/d") (promote
        ⟨[chars "/d", chars "/s/temp"],
         [(chars "/d/old.txt", chars "x"), (chars "/s/temp/data.json", chars "y")]⟩
        (chars "/s/temp") (chars "/d"))
        = (filesUnder (chars "/s/temp")
            ⟨[chars "/d", chars "/s/temp"],
             [(chars "/d/old.txt", chars "x"), (chars "/s/temp/data.json", chars "y")]⟩).map
              (relocEntry (chars "/s/temp") (chars "/d")) ∧
     dirsUnder (chars "/d") (promote
        ⟨[chars "/d", chars "/s/temp"],
         [(chars "/d/old.txt", chars "x"), (chars "/s/temp/data.json", chars "y")]⟩
        (chars "/s/temp") (chars "/d"))
        = (dirsUnder (chars "/s/temp")
            ⟨[chars "/d", chars "/s/temp"],
             [(chars "/d/old.txt", chars "x"), (chars "/s/temp/data.json", chars "y")]⟩).map
              (fun q => chars "/d" ++ q.drop (chars "/s/temp").length)) :=
  ⟨⟨rfl, by decide, by decide, by decide⟩,
   c3_amended_absolute_dest _ (chars "/s/temp") (chars "/d") rfl (by decide)
     (by decide) (by decide)⟩

/-! ## Unfolding lemmas for the pipeline stages -/

lemma downloadFile_success (oracle : Nat → Outcome) {cl : Option Nat} {body : Str}
    (url path filename : Str) (retryNum : Nat) (st : St) (fuel : Nat)
    (h : oracle 0 = .success cl body) :
    downloadFile oracle url path filename retryNum st 0 (fuel + 1)
      = (.ok (joinPath path filename) cl,
         { st with
           fs := writeFile st.fs (joinPath path filename) body,
           log := st.log ++ [url],
           totalBytes := st.totalBytes + contentBytes cl,
           numFiles := st.numFiles + 1 }, 1) := by
  simp only [downloadFile, h]

lemma readFile_writeFile (fs : Fs) (p c : Str) :
    readFile (writeFile fs p c) p = some c := by
  simp [readFile, writeFile, List.find?_cons]

lemma loadJSON_success (oracle : Nat → Outcome) {parse : Str → Option Str}
    {cl : Option Nat} {body norm : Str} (url temp : Str) (st : St) (fuel : Nat)
    (h : oracle 0 = .success cl body) (hp : parse body = some norm) :
    loadJSON oracle parse url temp st (fuel + 1)
      = .ok (norm,
         { st with
           fs := writeFile st.fs (joinPath temp (chars "data.json")) body,
           log := st.log ++ [url],
           totalBytes := st.totalBytes + contentBytes cl,
           numFiles := st.numFiles + 1 }) := by
  unfold loadJSON
  rw [downloadFile_success oracle url temp (chars "data.json") 0 st fuel h]
  dsimp only
  rw [readFile_writeFile]
  dsimp only
  rw [hp]

lemma loadJSON_parse_fail (oracle : Nat → Outcome) {parse : Str → Option Str}
    {cl : Option Nat} {body : Str} (url temp : Str) (st : St) (fuel : Nat)
    (h : oracle 0 = .success cl body) (hp : parse body = none) :
    loadJSON oracle parse url temp st (fuel + 1)
      = .error (.malformedManifest,
         { st with
           fs := writeFile st.fs (joinPath temp (chars "data.json")) body,
           log := st.log ++ [url],
           totalBytes := st.totalBytes + contentBytes cl,
           numFiles := st.numFiles + 1 }) := by
  unfold loadJSON
  rw [downloadFile_success oracle url temp (chars "data.json") 0 st fuel h]
  dsimp only
  rw [readFile_writeFile]
  dsimp only
  rw [hp]

/-! ## The staging area -/

lemma cleanUnder_iff {q : Str} {fs : Fs} :
    cleanUnder q fs = true ↔
      (∀ p ∈ fs.dirs, isUnder q p = false) ∧ (∀ pc ∈ fs.files, isUnder q pc.1 = false) := by
  simp [cleanUnder, List.all_eq_true]

lemma fsExists_false_of_clean {q : Str} {fs : Fs} (h : cleanUnder q fs = true) :
    fsExists fs q = false := by
  obtain ⟨hd, hf⟩ := cleanUnder_iff.mp h
  cases he : fsExists fs q with
  | false => rfl
  | true =>
    exfalso
    rcases Bool.or_eq_true _ _ |>.mp he with hc | hc
    · have : q ∈ fs.dirs := by simpa [List.contains, List.elem_iff] using hc
      have := hd q this
      rw [isUnder_refl] at this
      exact absurd this (by simp)
    · obtain ⟨pc, hpc, hb⟩ := List.any_eq_true.mp hc
      have := hf pc hpc
      rw [show pc.1 = q from by simpa using hb, isUnder_refl] at this
      exact absurd this (by simp)

/-- A staging write path `os.path.join(temp, f)` lies under `temp` whenever
`f` contains no slash (and `temp` is a well-formed nonempty path not ending
in a slash). -/
lemma joinPath_under (temp f : Str) (htne : temp ≠ []) (htl : temp.getLast? ≠ some '/')
    (hf : ('/' : Char) ∉ f) : isUnder temp (joinPath temp f) = true := by
  have hhead : f.head? ≠ some '/' := by
    cases f with
    | nil => simp
    | cons c f' =>
      simp only [List.head?, ne_eq, Option.some_inj]
      intro hc
      exact hf (by rw [hc]; exact List.mem_cons_self _ _)
  unfold joinPath
  rw [if_neg hhead, if_neg (by push_neg; exact ⟨htne, htl⟩)]
  exact isUnder_append temp f

lemma joinPath_temp_shape (a : Str) :
    joinPath a (chars "temp") ≠ [] ∧ (joinPath a (chars "temp")).getLast? = some 'p' := by
  unfold joinPath
  split
  · next h => simp [chars] at h
  · split
    · constructor
      · simp [chars]
      · rw [List.getLast?_append]
        rfl
    · constructor
      · simp
      · rw [show a ++ '/' :: chars "temp" = a ++ ('/' :: chars "temp") from rfl,
          List.getLast?_append]
        rfl

lemma stageWrite_under {remote : Str → Outcome} {temp : Str} {u : Str}
    (htne : temp ≠ []) (htl : temp.getLast? ≠ some '/')
    (hf : ('/' : Char) ∉ fileNameD (rstripBackslash u))
    (A : List (Str × Str)) (hA : ∀ pc ∈ A, isUnder temp pc.1 = true) :
    ∀ pc ∈ stageWrite remote temp A u, isUnder temp pc.1 = true := by
  intro pc hpc
  unfold stageWrite at hpc
  dsimp only at hpc
  rcases List.mem_cons.mp hpc with h | h
  · rw [h]
    exact joinPath_under temp _ htne htl hf
  · exact hA pc (List.mem_filter.mp h).1

lemma stageWrites_under {remote : Str → Outcome} {temp : Str}
    (htne : temp ≠ []) (htl : temp.getLast? ≠ some '/') :
    ∀ (urls : List Str), (∀ u ∈ urls, ('/' : Char) ∉ fileNameD (rstripBackslash u)) →
    ∀ (A : List (Str × Str)), (∀ pc ∈ A, isUnder temp pc.1 = true) →
    ∀ pc ∈ stageWrites remote temp A urls, isUnder temp pc.1 = true := by
  intro urls
  induction urls with
  | nil => intro _ A hA; exact hA
  | cons u rest ih =>
    intro hfs A hA
    exact ih (fun v hv => hfs v (List.mem_cons_of_mem u hv))
      (stageWrite remote temp A u)
      (stageWrite_under htne htl (hfs u (List.mem_cons_self u rest)) A hA)

/-- Staging writes never touch entries outside the staging subtree: they
pass through on the right. -/
lemma stageWrites_append {remote : Str → Outcome} {temp : Str}
    (htne : temp ≠ []) (htl : temp.getLast? ≠ some '/') :
    ∀ (urls : List Str), (∀ u ∈ urls, ('/' : Char) ∉ fileNameD (rstripBackslash u)) →
    ∀ (A B : List (Str × Str)), (∀ pc ∈ B, isUnder temp pc.1 = false) →
    stageWrites remote temp (A ++ B) urls = stageWrites remote temp A urls ++ B := by
  intro urls
  induction urls with
  | nil => intro _ A B _; rfl
  | cons u rest ih =>
    intro hfs A B hB
    show stageWrites remote temp (stageWrite remote temp (A ++ B) u) rest = _
    have hfp : isUnder temp (joinPath temp (fileNameD (rstripBackslash u))) = true :=
      joinPath_under temp _ htne htl (hfs u (List.mem_cons_self u rest))
    have hsplit : stageWrite remote temp (A ++ B) u = stageWrite remote temp A u ++ B := by
      unfold stageWrite
      dsimp only
      rw [List.filter_append]
      have : B.filter (fun pc => !(pc.1 == joinPath temp (fileNameD (rstripBackslash u)))) = B := by
        rw [List.filter_eq_self]
        intro pc hpc
        simp only [Bool.not_eq_eq_eq_not, Bool.not_true, beq_eq_false_iff_ne, ne_eq]
        intro heq
        have := hB pc hpc
        rw [heq, hfp] at this
        exact absurd this (by simp)
      rw [this]
      rfl
    rw [hsplit]
    exact ih (fun v hv => hfs v (List.mem_cons_of_mem u hv)) (stageWrite remote temp A u) B hB

/-- The download loop under an always-successful remote: it returns the
fully rewritten text, downloads once per occurrence (one log entry per url),
counts one file per occurrence, and its filesystem effect is exactly the
staging writes. -/
lemma urlFileName_of_bracketFree {u : Str} (h : bracketFreeNetloc u) :
    urlFileName u = some (fileNameD u) := by
  obtain ⟨h1, h2⟩ := h
  have hp : urlPathOf u = some (stripParams
      (if ((afterSchemeOf u).dropWhile (fun c => !(c == '/') && !(c == '?'))).head? = some '/'
       then ((afterSchemeOf u).dropWhile (fun c => !(c == '/') && !(c == '?'))).takeWhile
          (fun c => !(c == '?'))
       else [])) := by
    unfold urlPathOf
    rw [if_neg (by rintro (⟨hin, _⟩ | ⟨hin, _⟩) <;> [exact h1 hin; exact h2 hin])]
  show (urlPathOf u).map _ = some (((urlPathOf u).map _).getD [])
  rw [hp]
  rfl

lemma getFilesFromJson_spec (remote : Str → Outcome) (temp : Str)
    (hsucc : ∀ u, ∃ cl b, remote u = .success cl b) (fuel : Nat) :
    ∀ (urls : List Str), (∀ u ∈ urls, bracketFreeNetloc (rstripBackslash u)) →
    ∀ (js : Str) (st : St),
    ∃ st', getFilesFromJson remote temp js urls st (fuel + 1) = .ok (rewriteFrom js urls, st') ∧
      st'.numRetries = st.numRetries ∧
      st'.numFiles = st.numFiles + urls.length ∧
      st'.log = st.log ++ urls.map rstripBackslash ∧
      st'.fs.dirs = st.fs.dirs ∧
      st'.fs.files = stageWrites remote temp st.fs.files urls := by
  intro urls
  induction urls with
  | nil =>
    intro _ js st
    exact ⟨st, rfl, rfl, by simp, by simp, rfl, rfl⟩
  | cons u rest ih =>
    intro hnb js st
    obtain ⟨cl, b, hr⟩ := hsucc (rstripBackslash u)
    have hd := downloadFile_success (fun _ => remote (rstripBackslash u))
      (rstripBackslash u) temp (fileNameD (rstripBackslash u)) 0 st fuel hr
    obtain ⟨st', hrun, hretr, hnum, hlog, hdirs, hfiles⟩ :=
      ih (fun v hv => hnb v (List.mem_cons_of_mem u hv))
        (strReplace js (rstripBackslash u) (fileNameD (rstripBackslash u)))
        { st with
          fs := writeFile st.fs (joinPath temp (fileNameD (rstripBackslash u))) b,
          log := st.log ++ [rstripBackslash u],
          totalBytes := st.totalBytes + contentBytes cl,
          numFiles := st.numFiles + 1 }
    refine ⟨st', ?_, ?_, ?_, ?_, ?_, ?_⟩
    · show getFilesFromJson remote temp js (u :: rest) st (fuel + 1) = _
      unfold getFilesFromJson
      dsimp only
      rw [urlFileName_of_bracketFree (hnb u (List.mem_cons_self u rest))]
      dsimp only
      rw [hd]
      exact hrun
    · rw [hretr]
    · rw [hnum]
      simp only [List.length_cons]
      omega
    · rw [hlog]
      simp
    · rw [hdirs]
      rfl
    · rw [hfiles]
      have hsw : stageWrite remote temp st.fs.files u
          = (writeFile st.fs (joinPath temp (fileNameD (rstripBackslash u))) b).files := by
        unfold stageWrite writeFile
        dsimp only
        rw [hr]
        rfl
      show _ = stageWrites remote temp (stageWrite remote temp st.fs.files u) rest
      rw [hsw]

/-! ## The promotion step -/

lemma fsExists_eq_false_iff {fs : Fs} {q : Str} :
    fsExists fs q = false ↔ q ∉ fs.dirs ∧ ∀ pc ∈ fs.files, pc.1 ≠ q := by
  simp [fsExists, List.contains, List.elem_iff, List.any_eq_true, not_or]

/-- `shutil.move` when the destination does not exist: a plain rename of the
staging subtree. -/
lemma moveDir_rename (temp dest : Str) (C F : List (Str × Str)) (D : List Str)
    (hC : ∀ pc ∈ C, isUnder temp pc.1 = true)
    (hD : ∀ q ∈ D, isUnder temp q = false) (hDd : ∀ q ∈ D, q ≠ dest)
    (hF : ∀ pc ∈ F, isUnder temp pc.1 = false)
    (htdne : temp ≠ dest) :
    moveDir ⟨temp :: D, C ++ F⟩ temp dest
      = ⟨dest :: D, C.map (relocEntry temp dest) ++ F⟩ := by
  unfold moveDir
  dsimp only
  have hcont : (temp :: D).contains dest = false := by
    cases hc : (temp :: D).contains dest with
    | false => rfl
    | true =>
      exfalso
      have : dest ∈ temp :: D := by simpa [List.contains, List.elem_iff] using hc
      rcases List.mem_cons.mp this with h | h
      · exact htdne h.symm
      · exact hDd dest h rfl
  rw [hcont]
  simp only [Bool.false_eq_true, if_false]
  have hdirs : (temp :: D).map
      (fun q => if isUnder temp q = true then dest ++ q.drop temp.length else q)
      = dest :: D := by
    rw [List.map_cons, if_pos (isUnder_refl temp), List.drop_length, List.append_nil]
    congr 1
    have : ∀ q ∈ D, (if isUnder temp q = true then dest ++ q.drop temp.length else q) = q := by
      intro q hq
      rw [hD q hq]
      simp
    rw [List.map_congr_left this, List.map_id']
  have hfiles : (C ++ F).map
      (fun pc => if isUnder temp pc.1 = true then (dest ++ pc.1.drop temp.length, pc.2) else pc)
      = C.map (relocEntry temp dest) ++ F := by
    rw [List.map_append]
    congr 1
    · exact List.map_congr_left (fun pc hpc => by rw [hC pc hpc]; simp [relocEntry])
    · have : ∀ pc ∈ F, (if isUnder temp pc.1 = true
          then (dest ++ pc.1.drop temp.length, pc.2) else pc) = pc := by
        intro pc hpc
        rw [hF pc hpc]
        simp
      rw [List.map_congr_left this, List.map_id']
  rw [hdirs, hfiles]

/-- Promotion of a staging subtree `C` over a base filesystem: the old
destination subtree (if any) is removed and the staging entries are
relocated to the destination — provided the destination path is absolute. -/
lemma promote_split (temp dest : Str) (C : List (Str × Str)) (fs0 : Fs)
    (habs : dest.head? = some '/')
    (htd : isUnder dest temp = false) (hdt : isUnder temp dest = false)
    (hC : ∀ pc ∈ C, isUnder temp pc.1 = true)
    (hct : cleanUnder temp fs0 = true)
    (hcd : dest ∈ fs0.dirs ∨ cleanUnder dest fs0 = true) :
    promote ⟨temp :: fs0.dirs, C ++ fs0.files⟩ temp dest
      = ⟨dest :: fs0.dirs.filter (fun q => !(isUnder dest q)),
         C.map (relocEntry temp dest)
           ++ fs0.files.filter (fun pc => !(isUnder dest pc.1))⟩ := by
  obtain ⟨hcd0, hcf0⟩ := cleanUnder_iff.mp hct
  have hCD : ∀ pc ∈ C, isUnder dest pc.1 = false :=
    fun pc h => isUnder_disjoint htd hdt (hC pc h)
  have htdne : temp ≠ dest := by
    intro he
    rw [he, isUnder_refl] at hdt
    exact absurd hdt (by simp)
  unfold promote
  dsimp only
  rw [joinPath_abs habs]
  rcases hcd with hmem | hclean
  · have hex : fsExists ⟨temp :: fs0.dirs, C ++ fs0.files⟩ dest = true := by
      simp only [fsExists, Bool.or_eq_true]
      left
      have : dest ∈ temp :: fs0.dirs := List.mem_cons_of_mem temp hmem
      simpa [List.contains, List.elem_iff] using this
    rw [if_pos hex]
    have hrm : rmtree ⟨temp :: fs0.dirs, C ++ fs0.files⟩ dest
        = ⟨temp :: fs0.dirs.filter (fun q => !(isUnder dest q)),
           C ++ fs0.files.filter (fun pc => !(isUnder dest pc.1))⟩ := by
      unfold rmtree
      dsimp only
      rw [List.filter_cons, List.filter_append]
      rw [htd]
      simp only [Bool.not_false, if_true]
      congr 2
      rw [List.filter_eq_self]
      intro pc hpc
      rw [hCD pc hpc]
      simp
    rw [hrm]
    exact moveDir_rename temp dest C
      (fs0.files.filter (fun pc => !(isUnder dest pc.1)))
      (fs0.dirs.filter (fun q => !(isUnder dest q))) hC
      (fun q hq => hcd0 q (List.mem_filter.mp hq).1)
      (fun q hq hqd => by
        have := (List.mem_filter.mp hq).2
        rw [hqd, isUnder_refl] at this
        exact absurd this (by simp))
      (fun pc hpc => hcf0 pc (List.mem_filter.mp hpc).1)
      htdne
  · obtain ⟨hcdd, hcdf⟩ := cleanUnder_iff.mp hclean
    have hex : fsExists ⟨temp :: fs0.dirs, C ++ fs0.files⟩ dest = false := by
      rw [fsExists_eq_false_iff]
      constructor
      · intro hmem
        rcases List.mem_cons.mp hmem with h | h
        · exact htdne h.symm
        · have := hcdd dest h
          rw [isUnder_refl] at this
          exact absurd this (by simp)
      · intro pc hpc heq
        rcases List.mem_append.mp hpc with h | h
        · have := hCD pc h
          rw [heq, isUnder_refl] at this
          exact absurd this (by simp)
        · have := hcdf pc h
          rw [heq, isUnder_refl] at this
          exact absurd this (by simp)
    rw [if_neg (by rw [hex]; simp)]
    have h1 : fs0.dirs.filter (fun q => !(isUnder dest q)) = fs0.dirs := by
      rw [List.filter_eq_self]
      intro q hq
      rw [hcdd q hq]
      simp
    have h2 : fs0.files.filter (fun pc => !(isUnder dest pc.1)) = fs0.files := by
      rw [List.filter_eq_self]
      intro pc hpc
      rw [hcdf pc hpc]
      simp
    rw [h1, h2]
    exact moveDir_rename temp dest C fs0.files fs0.dirs hC hcd0
      (fun q hq hqd => by
        have := hcdd q hq
        rw [hqd, isUnder_refl] at this
        exact absurd this (by simp))
      hcf0 htdne

/-! ## The whole run under an always-successful remote -/

/-- Characterisation of a successful run: the destination subtree afterwards
is exactly the relocated staging cache (rewritten `data.json` plus one write
per URL occurrence), everything else under the destination is gone, other
filesystem entries are untouched, the file counter equals one (manifest)
plus one per URL occurrence, and the attempt log records the manifest fetch
followed by one fetch per occurrence. -/
lemma run_shape (remote : Str → Outcome) (parse : Str → Option Str)
    (scriptDir dest apiURL : Str) (numRetries fuel : Nat) (fs0 : Fs)
    (temp : Str) (htemp : temp = joinPath scriptDir (chars "temp"))
    (clM : Option Nat) (body norm : Str)
    (hm : remote apiURL = .success clM body)
    (hp : parse body = some norm)
    (hsucc : ∀ u, ∃ cl b, remote u = .success cl b)
    (hfile : ∀ u ∈ extractUrls norm, ('/' : Char) ∉ fileNameD (rstripBackslash u))
    (hnb : ∀ u ∈ extractUrls norm, bracketFreeNetloc (rstripBackslash u))
    (habs : dest.head? = some '/')
    (htd : isUnder dest temp = false) (hdt : isUnder temp dest = false)
    (hct : cleanUnder temp fs0 = true)
    (hcd : dest ∈ fs0.dirs ∨ cleanUnder dest fs0 = true) :
    ∃ st, run remote parse scriptDir dest apiURL numRetries (fuel + 1) fs0 = .ok st ∧
      st.fs.files = (stagedCache remote temp body norm).map (relocEntry temp dest)
          ++ fs0.files.filter (fun pc => !(isUnder dest pc.1)) ∧
      st.fs.dirs = dest :: fs0.dirs.filter (fun q => !(isUnder dest q)) ∧
      st.numFiles = 1 + (extractUrls norm).length ∧
      st.log = apiURL :: (extractUrls norm).map rstripBackslash ∧
      cleanUnder temp st.fs = true ∧
      dest ∈ st.fs.dirs ∧
      (∀ pc ∈ stagedCache remote temp body norm, isUnder temp pc.1 = true) := by
  have htne : temp ≠ [] := htemp ▸ (joinPath_temp_shape scriptDir).1
  have htl : temp.getLast? ≠ some '/' := by
    rw [htemp, (joinPath_temp_shape scriptDir).2]
    simp
  obtain ⟨hcd0, hcf0⟩ := cleanUnder_iff.mp hct
  have hex0 : fsExists fs0 temp = false := fsExists_false_of_clean hct
  have hdju : isUnder temp (joinPath temp (chars "data.json")) = true :=
    joinPath_under temp _ htne htl (by decide)
  have hfs0dj : ∀ c : Str, fs0.files.filter
      (fun pc => !(pc.1 == joinPath temp (chars "data.json"))) = fs0.files := by
    intro c
    rw [List.filter_eq_self]
    intro pc hpc
    simp only [Bool.not_eq_eq_eq_not, Bool.not_true, beq_eq_false_iff_ne, ne_eq]
    intro heq
    have := hcf0 pc hpc
    rw [heq, hdju] at this
    exact absurd this (by simp)
  -- the staging cache entries all lie under the staging directory
  have hstu : ∀ pc ∈ stageWrites remote temp [(joinPath temp (chars "data.json"), body)]
      (extractUrls norm), isUnder temp pc.1 = true := by
    apply stageWrites_under htne htl (extractUrls norm) hfile
    intro pc hpc
    rcases List.mem_singleton.mp hpc with h
    rw [h]
    exact hdju
  have hCu : ∀ pc ∈ stagedCache remote temp body norm, isUnder temp pc.1 = true := by
    intro pc hpc
    unfold stagedCache at hpc
    dsimp only at hpc
    rcases List.mem_cons.mp hpc with h | h
    · rw [h]
      exact hdju
    · exact hstu pc (List.mem_filter.mp h).1
  -- unfold the run
  unfold run
  dsimp only
  rw [← htemp, hex0]
  simp only [Bool.false_eq_true, if_false]
  rw [loadJSON_success (fun _ => remote apiURL) apiURL temp
    ⟨numRetries, 0, 0, makedirs fs0 temp, []⟩ fuel
    (show (fun _ : Nat => remote apiURL) 0 = .success clM body from hm) hp]
  dsimp only
  obtain ⟨st2, hg, hretr2, hnum2, hlog2, hdirs2, hfiles2⟩ :=
    getFilesFromJson_spec remote temp hsucc fuel (extractUrls norm) hnb norm
      { numRetries := numRetries, totalBytes := 0 + contentBytes clM, numFiles := 0 + 1,
        fs := writeFile (makedirs fs0 temp) (joinPath temp (chars "data.json")) body,
        log := [] ++ [apiURL] }
  rw [hg]
  dsimp only
  have hst2d : st2.fs.dirs = temp :: fs0.dirs := by
    rw [hdirs2]
    rfl
  have hst2f : st2.fs.files
      = stageWrites remote temp [(joinPath temp (chars "data.json"), body)]
          (extractUrls norm) ++ fs0.files := by
    rw [hfiles2]
    show stageWrites remote temp
      ((joinPath temp (chars "data.json"), body) :: fs0.files.filter
        (fun pc => !(pc.1 == joinPath temp (chars "data.json")))) (extractUrls norm) = _
    rw [hfs0dj body]
    exact stageWrites_append htne htl (extractUrls norm) hfile
      [(joinPath temp (chars "data.json"), body)] fs0.files hcf0
  have hw : writeFile st2.fs (joinPath temp (chars "data.json"))
        (rewriteFrom norm (extractUrls norm))
      = ⟨temp :: fs0.dirs, stagedCache remote temp body norm ++ fs0.files⟩ := by
    unfold writeFile
    rw [Fs.mk.injEq]
    constructor
    · exact hst2d
    · rw [hst2f, List.filter_append, hfs0dj (chars "x")]
      unfold stagedCache
      dsimp only
      rfl
  refine ⟨_, rfl, ?_, ?_, ?_, ?_, ?_, ?_, hCu⟩
  · show (promote (writeFile st2.fs (joinPath temp (chars "data.json"))
        (rewriteFrom norm (extractUrls norm))) temp dest).files = _
    rw [hw, promote_split temp dest _ fs0 habs htd hdt hCu hct hcd]
  · show (promote (writeFile st2.fs (joinPath temp (chars "data.json"))
        (rewriteFrom norm (extractUrls norm))) temp dest).dirs = _
    rw [hw, promote_split temp dest _ fs0 habs htd hdt hCu hct hcd]
  · show st2.numFiles = 1 + (extractUrls norm).length
    rw [hnum2]
  · show st2.log = apiURL :: (extractUrls norm).map rstripBackslash
    rw [hlog2]
    rfl
  · show cleanUnder temp (promote (writeFile st2.fs (joinPath temp (chars "data.json"))
        (rewriteFrom norm (extractUrls norm))) temp dest) = true
    rw [hw, promote_split temp dest _ fs0 habs htd hdt hCu hct hcd]
    apply cleanUnder_iff.mpr
    constructor
    · intro q hq
      rcases List.mem_cons.mp hq with h | h
      · rw [h]
        exact hdt
      · exact hcd0 q (List.mem_filter.mp h).1
    · intro pc hpc
      rcases List.mem_append.mp hpc with h | h
      · obtain ⟨pc0, hpc0, hrel⟩ := List.mem_map.mp h
        have hdp : isUnder dest pc.1 = true := by
          rw [← hrel]
          exact isUnder_reloc (hCu pc0 hpc0)
        exact isUnder_disjoint hdt htd hdp
      · exact hcf0 pc (List.mem_filter.mp h).1
  · show dest ∈ (promote (writeFile st2.fs (joinPath temp (chars "data.json"))
        (rewriteFrom norm (extractUrls norm))) temp dest).dirs
    rw [hw, promote_split temp dest _ fs0 habs htd hdt hCu hct hcd]
    exact List.mem_cons_self dest _

/-- C10: the file counter is incremented once per successful `urlretrieve`
including the initial manifest fetch, so a run that downloads `n` asset
occurrences reports `n + 1` files — `n` is the number of URL *occurrences*
in the manifest (`extractUrls` keeps duplicates), not the number of distinct
assets.  The hypotheses (all fetches succeed, the manifest parses, every
extracted URL has a bracket-free authority so the line-106 `urlparse` cannot
raise) characterise exactly the runs that download all occurrences and reach
the report. -/
theorem c10_file_count (remote : Str → Outcome) (parse : Str → Option Str)
    (scriptDir dest apiURL : Str) (numRetries fuel : Nat) (fs0 : Fs)
    (temp : Str) (htemp : temp = joinPath scriptDir (chars "temp"))
    (clM : Option Nat) (body norm : Str)
    (hm : remote apiURL = .success clM body)
    (hp : parse body = some norm)
    (hsucc : ∀ u, ∃ cl b, remote u = .success cl b)
    (hfile : ∀ u ∈ extractUrls norm, ('/' : Char) ∉ fileNameD (rstripBackslash u))
    (hnb : ∀ u ∈ extractUrls norm, bracketFreeNetloc (rstripBackslash u))
    (habs : dest.head? = some '/')
    (htd : isUnder dest temp = false) (hdt : isUnder temp dest = false)
    (hct : cleanUnder temp fs0 = true)
    (hcd : dest ∈ fs0.dirs ∨ cleanUnder dest fs0 = true) :
    ∃ st, run remote parse scriptDir dest apiURL numRetries (fuel + 1) fs0 = .ok st ∧
      st.numFiles = 1 + (extractUrls norm).length := by
  obtain ⟨st, hrun, _, _, hnum, _, _, _, _⟩ := run_shape remote parse scriptDir dest apiURL
    numRetries fuel fs0 temp htemp clM body norm hm hp hsucc hfile hnb habs htd hdt hct hcd
  exact ⟨st, hrun, hnum⟩

/-- Witness for C10 on the duplicate-URL example: one URL occurring twice
gives a reported count of 3 (manifest + two occurrence downloads), although
only one distinct asset exists. -/
theorem c10_file_count_witness :
    ∃ st, run exRemote exParse (chars "/s") (chars "/d") exApi 3 (8 + 1) emptyFs = .ok st ∧
      st.numFiles = 1 + (extractUrls exManifest).length :=
  c10_file_count exRemote exParse (chars "/s") (chars "/d") exApi 3 8 emptyFs
    (joinPath (chars "/s") (chars "temp")) rfl (some 64) exManifest exManifest
    (by decide) rfl
    (by intro u; unfold exRemote; split <;> exact ⟨_, _, rfl⟩)
    (by decide) (by decide) rfl (by decide) (by decide) (by decide) (.inr (by decide))

/-- C1 (amended): on an always-successful remote, and provided every
extracted URL has a bracket-free authority (otherwise `urlparse` raises at
line 106 and the run aborts before any asset download), the orchestrator
performs one download per textual URL occurrence (the log after the manifest
fetch is exactly the occurrence list, duplicates included — duplicated URLs
are re-downloaded, overwriting the same file), and the persisted `data.json`
at the destination is the manifest text with every occurrence of every
extracted URL replaced by its derived filename. -/
theorem c1_amended_download_per_occurrence (remote : Str → Outcome)
    (parse : Str → Option Str)
    (scriptDir dest apiURL : Str) (numRetries fuel : Nat) (fs0 : Fs)
    (temp : Str) (htemp : temp = joinPath scriptDir (chars "temp"))
    (clM : Option Nat) (body norm : Str)
    (hm : remote apiURL = .success clM body)
    (hp : parse body = some norm)
    (hsucc : ∀ u, ∃ cl b, remote u = .success cl b)
    (hfile : ∀ u ∈ extractUrls norm, ('/' : Char) ∉ fileNameD (rstripBackslash u))
    (hnb : ∀ u ∈ extractUrls norm, bracketFreeNetloc (rstripBackslash u))
    (habs : dest.head? = some '/')
    (htd : isUnder dest temp = false) (hdt : isUnder temp dest = false)
    (hct : cleanUnder temp fs0 = true)
    (hcd : dest ∈ fs0.dirs ∨ cleanUnder dest fs0 = true) :
    ∃ st, run remote parse scriptDir dest apiURL numRetries (fuel + 1) fs0 = .ok st ∧
      st.log = apiURL :: (extractUrls norm).map rstripBackslash ∧
      readFile st.fs (dest ++ '/' :: chars "data.json")
        = some (rewriteFrom norm (extractUrls norm)) := by
  obtain ⟨st, hrun, hfiles, _, _, hlog, _, _, _⟩ := run_shape remote parse scriptDir dest apiURL
    numRetries fuel fs0 temp htemp clM body norm hm hp hsucc hfile hnb habs htd hdt hct hcd
  refine ⟨st, hrun, hlog, ?_⟩
  have htne : temp ≠ [] := htemp ▸ (joinPath_temp_shape scriptDir).1
  have htl : temp.getLast? ≠ some '/' := by
    rw [htemp, (joinPath_temp_shape scriptDir).2]
    simp
  have hdj : joinPath temp (chars "data.json") = temp ++ '/' :: chars "data.json" := by
    unfold joinPath
    rw [if_neg (by decide), if_neg (by push_neg; exact ⟨htne, htl⟩)]
  unfold readFile
  rw [hfiles]
  unfold stagedCache relocEntry
  dsimp only
  rw [List.map_cons]
  dsimp only
  rw [hdj, List.drop_left]
  simp [List.find?_cons]

/-- Witness for C1's amended theorem on the spec's duplicate-URL example:
the log shows the same URL fetched twice. -/
theorem c1_amended_download_per_occurrence_witness :
    ∃ st, run exRemote exParse (chars "/s") (chars "/d") exApi 3 (8 + 1) emptyFs = .ok st ∧
      st.log = exApi :: (extractUrls exManifest).map rstripBackslash ∧
      readFile st.fs (chars "/d" ++ '/' :: chars "data.json")
        = some (rewriteFrom exManifest (extractUrls exManifest)) :=
  c1_amended_download_per_occurrence exRemote exParse (chars "/s") (chars "/d") exApi 3 8
    emptyFs (joinPath (chars "/s") (chars "temp")) rfl (some 64) exManifest exManifest
    (by decide) rfl
    (by intro u; unfold exRemote; split <;> exact ⟨_, _, rfl⟩)
    (by decide) (by decide) rfl (by decide) (by decide) (by decide) (.inr (by decide))

/-- C4 (amended): with an absolute destination path, no pre-existing staging
directory, and bracket-free authorities in every extracted URL (so the
line-106 `urlparse` cannot raise), the orchestrator is idempotent: a second
run from the state the first run left behind succeeds and leaves the
destination's whole filesystem (and everything else) exactly as after the
first run — in particular a byte-identical `data.json` and identical asset
files.  (For a relative destination this fails; see the counterexample.) -/
theorem c4_amended_idempotent (remote : Str → Outcome) (parse : Str → Option Str)
    (scriptDir dest apiURL : Str) (numRetries fuel : Nat) (fs0 : Fs)
    (temp : Str) (htemp : temp = joinPath scriptDir (chars "temp"))
    (clM : Option Nat) (body norm : Str)
    (hm : remote apiURL = .success clM body)
    (hp : parse body = some norm)
    (hsucc : ∀ u, ∃ cl b, remote u = .success cl b)
    (hfile : ∀ u ∈ extractUrls norm, ('/' : Char) ∉ fileNameD (rstripBackslash u))
    (hnb : ∀ u ∈ extractUrls norm, bracketFreeNetloc (rstripBackslash u))
    (habs : dest.head? = some '/')
    (htd : isUnder dest temp = false) (hdt : isUnder temp dest = false)
    (hct : cleanUnder temp fs0 = true)
    (hcd : dest ∈ fs0.dirs ∨ cleanUnder dest fs0 = true) :
    ∃ st1 st2,
      run remote parse scriptDir dest apiURL numRetries (fuel + 1) fs0 = .ok st1 ∧
      run remote parse scriptDir dest apiURL numRetries (fuel + 1) st1.fs = .ok st2 ∧
      st2.fs = st1.fs := by
  obtain ⟨st1, hrun1, hfiles1, hdirs1, _, _, hclean1, hdest1, hCu⟩ :=
    run_shape remote parse scriptDir dest apiURL numRetries fuel fs0 temp htemp
      clM body norm hm hp hsucc hfile hnb habs htd hdt hct hcd
  obtain ⟨st2, hrun2, hfiles2, hdirs2, _, _, _, _, _⟩ :=
    run_shape remote parse scriptDir dest apiURL numRetries fuel st1.fs temp htemp
      clM body norm hm hp hsucc hfile hnb habs htd hdt hclean1 (.inl hdest1)
  refine ⟨st1, st2, hrun1, hrun2, ?_⟩
  have hd2 : st2.fs.dirs = st1.fs.dirs := by
    rw [hdirs2, hdirs1]
    congr 1
    rw [List.filter_cons]
    simp only [isUnder_refl, Bool.not_true, Bool.false_eq_true, if_false]
    rw [List.filter_filter]
    exact List.filter_congr (fun q _ => Bool.and_self _)
  have hf2 : st2.fs.files = st1.fs.files := by
    rw [hfiles2, hfiles1]
    congr 1
    rw [List.filter_append]
    have h1 : ((stagedCache remote temp body norm).map (relocEntry temp dest)).filter
        (fun pc => !(isUnder dest pc.1)) = [] := by
      rw [List.filter_eq_nil_iff]
      intro pc hpc
      obtain ⟨pc0, hpc0, hrel⟩ := List.mem_map.mp hpc
      have hdp : isUnder dest pc.1 = true := by
        rw [← hrel]
        exact isUnder_reloc (hCu pc0 hpc0)
      simp [hdp]
    have h2 : (fs0.files.filter (fun pc => !(isUnder dest pc.1))).filter
        (fun pc => !(isUnder dest pc.1))
        = fs0.files.filter (fun pc => !(isUnder dest pc.1)) := by
      rw [List.filter_filter]
      exact List.filter_congr (fun pc _ => Bool.and_self _)
    rw [h1, h2]
    rfl
  show st2.fs = st1.fs
  rw [show st2.fs = Fs.mk st2.fs.dirs st2.fs.files from rfl,
    show st1.fs = Fs.mk st1.fs.dirs st1.fs.files from rfl, hd2, hf2]

/-- Witness for C4's amended theorem: two runs against the example remote
with the absolute destination `/d`. -/
theorem c4_amended_idempotent_witness :
    ∃ st1 st2,
      run exRemote exParse (chars "/s") (chars "/d") exApi 3 (8 + 1) emptyFs = .ok st1 ∧
      run exRemote exParse (chars "/s") (chars "/d") exApi 3 (8 + 1) st1.fs = .ok st2 ∧
      st2.fs = st1.fs :=
  c4_amended_idempotent exRemote exParse (chars "/s") (chars "/d") exApi 3 8 emptyFs
    (joinPath (chars "/s") (chars "temp")) rfl (some 64) exManifest exManifest
    (by decide) rfl
    (by intro u; unfold exRemote; split <;> exact ⟨_, _, rfl⟩)
    (by decide) (by decide) rfl (by decide) (by decide) (by decide) (.inr (by decide))

/-- C8: the manifest is fetched and parsed before any asset work; if the
parse fails, the run aborts as `MalformedManifest` with the attempt log
containing only the manifest fetch (zero asset downloads) and the
destination subtree untouched (no cache promoted). -/
theorem c8_malformed_manifest_aborts (remote : Str → Outcome)
    (parse : Str → Option Str)
    (scriptDir dest apiURL : Str) (numRetries fuel : Nat) (fs0 : Fs)
    (temp : Str) (htemp : temp = joinPath scriptDir (chars "temp"))
    (clM : Option Nat) (body : Str)
    (hm : remote apiURL = .success clM body)
    (hp : parse body = none)
    (htd : isUnder dest temp = false) (hdt : isUnder temp dest = false) :
    ∃ stE, run remote parse scriptDir dest apiURL numRetries (fuel + 1) fs0
        = .error (.malformedManifest, stE) ∧
      stE.log = [apiURL] ∧
      filesUnder dest stE.fs = filesUnder dest fs0 ∧
      dirsUnder dest stE.fs = dirsUnder dest fs0 := by
  have htne : temp ≠ [] := htemp ▸ (joinPath_temp_shape scriptDir).1
  have htl : temp.getLast? ≠ some '/' := by
    rw [htemp, (joinPath_temp_shape scriptDir).2]
    simp
  have hdju : isUnder temp (joinPath temp (chars "data.json")) = true :=
    joinPath_under temp _ htne htl (by decide)
  have hdjd : isUnder dest (joinPath temp (chars "data.json")) = false :=
    isUnder_disjoint htd hdt hdju
  have hfilter : ∀ fsx : Fs, filesUnder dest
      (writeFile fsx (joinPath temp (chars "data.json")) body) = filesUnder dest fsx := by
    intro fsx
    unfold filesUnder writeFile
    dsimp only
    rw [List.filter_cons]
    simp only [hdjd, Bool.false_eq_true, if_false]
    rw [List.filter_filter]
    apply List.filter_congr
    intro pc _
    cases hdp : isUnder dest pc.1 with
    | false => simp
    | true =>
      simp only [Bool.true_and]
      simp only [Bool.not_eq_eq_eq_not, Bool.not_true, beq_eq_false_iff_ne, ne_eq]
      intro heq
      rw [heq, hdjd] at hdp
      exact absurd hdp (by simp)
  unfold run
  dsimp only
  rw [← htemp]
  cases hEx : fsExists fs0 temp with
  | true =>
    rw [if_pos rfl]
    rw [loadJSON_parse_fail (fun _ => remote apiURL) apiURL temp
      ⟨numRetries, 0, 0, fs0, []⟩ fuel
      (show (fun _ : Nat => remote apiURL) 0 = .success clM body from hm) hp]
    refine ⟨_, rfl, rfl, ?_, rfl⟩
    exact hfilter fs0
  | false =>
    rw [if_neg (by simp)]
    rw [loadJSON_parse_fail (fun _ => remote apiURL) apiURL temp
      ⟨numRetries, 0, 0, makedirs fs0 temp, []⟩ fuel
      (show (fun _ : Nat => remote apiURL) 0 = .success clM body from hm) hp]
    refine ⟨_, rfl, rfl, ?_, ?_⟩
    · rw [hfilter (makedirs fs0 temp)]
      rfl
    · show dirsUnder dest (writeFile (makedirs fs0 temp)
          (joinPath temp (chars "data.json")) body) = dirsUnder dest fs0
      unfold dirsUnder writeFile makedirs
      dsimp only
      rw [List.filter_cons]
      simp only [htd, Bool.false_eq_true, if_false]

/-- Witness for C8: a parse function rejecting everything makes the run
abort after exactly the manifest fetch. -/
theorem c8_malformed_manifest_aborts_witness :
    ∃ stE, run exRemote (fun _ => none) (chars "/s") (chars "/d") exApi 3 (8 + 1) emptyFs
        = .error (.malformedManifest, stE) ∧
      stE.log = [exApi] ∧
      filesUnder (chars "/d") stE.fs = filesUnder (chars "/d") emptyFs ∧
      dirsUnder (chars "/d") stE.fs = dirsUnder (chars "/d") emptyFs :=
  c8_malformed_manifest_aborts exRemote (fun _ => none) (chars "/s") (chars "/d") exApi 3 8
    emptyFs (joinPath (chars "/s") (chars "temp")) rfl (some 64) exManifest
    (by decide) rfl (by decide) (by decide)

end CacheDataLocally
